import Mathlib

/-!
Shallow embedding of `pulsar-fast-publish` (src/lib/main.js): the version
bumper `increaseVersionNumber`, the change detector `hasChangesSinceLastTag`,
the git release sequence `gitPrepare`, the pipelines `publish` / `ppmPublish`,
the push helper `gitPush`, and the cached strategy probe `getGitStrategy`.
External effects (git subprocesses, ppm, the manifest file, notifications)
are modelled by oracles and an event trace.
-/

namespace FastPublish

/-- A JavaScript value as it can appear in the version array built by
`increaseVersionNumber`: `split` produces strings, a missing index reads as
`undefined`, and `parseInt(x) + 1` produces an integer or `NaN`. -/
inductive JsVal where
  | vundefined : JsVal
  | vstr (s : String) : JsVal
  | vint (n : Int) : JsVal
  | vnan : JsVal
deriving DecidableEq, Repr

/-- How a JS value prints inside `Array.prototype.join`: `undefined` (and
array holes) become the empty string, numbers print in decimal, `NaN`
prints as "NaN". -/
def JsVal.joinStr : JsVal → String
  | .vundefined => ""
  | .vstr s => s
  | .vint n => toString n
  | .vnan => "NaN"

/-- Decimal value of a list of digit characters (leading digits already
isolated by the caller). -/
def digitsToNat (l : List Char) : Nat :=
  l.foldl (fun a c => a * 10 + (c.toNat - 48)) 0

/-- Whitespace as skipped by `parseInt` and trimmed from subprocess output
(space, tab, newline, carriage return). -/
def isWsChar (c : Char) : Bool :=
  c == ' ' || c == '\t' || c == '\n' || c == '\r'

/-- JS `parseInt` after whitespace skipping: optional sign, then leading
decimal digits; `NaN` when no digit is found. -/
def jsParseIntSigned : List Char → JsVal
  | [] => .vnan
  | ch :: rest =>
    if ch = '-' then
      let d := rest.takeWhile Char.isDigit
      if d.isEmpty then .vnan else .vint (-(digitsToNat d : Int))
    else if ch = '+' then
      let d := rest.takeWhile Char.isDigit
      if d.isEmpty then .vnan else .vint (digitsToNat d)
    else
      let d := (ch :: rest).takeWhile Char.isDigit
      if d.isEmpty then .vnan else .vint (digitsToNat d)

/-- JS `parseInt` on a string: skip leading whitespace, optional sign, then
leading decimal digits; `NaN` when no digit is found. -/
def jsParseIntChars (l : List Char) : JsVal :=
  jsParseIntSigned (l.dropWhile isWsChar)

/-- JS `parseInt` applied to an array element: a missing element is
`undefined`, which stringifies to "undefined" and parses to `NaN`. -/
def jsParseInt : JsVal → JsVal
  | .vundefined => .vnan
  | .vstr s => jsParseIntChars s.toList
  | .vint n => .vint n
  | .vnan => .vnan

/-- JS `x + 1` on the result of `parseInt`: `NaN` is absorbing. -/
def jsAdd1 : JsVal → JsVal
  | .vint n => .vint (n + 1)
  | _ => .vnan

/-- JS `String.prototype.split` with a one-character separator: splits at
every occurrence; the empty string yields `[""]`. -/
def splitOnChar (c : Char) : List Char → List (List Char)
  | [] => [[]]
  | x :: xs =>
    match splitOnChar c xs with
    | [] => [[]]
    | g :: gs => if x = c then [] :: g :: gs else (x :: g) :: gs

/-- JS `Array.prototype.join` with a one-character separator, over
already-stringified elements. -/
def joinWith (c : Char) : List (List Char) → List Char
  | [] => []
  | [g] => g
  | g :: gs => g ++ c :: joinWith c gs

/-- JS array read `a[i]`: `undefined` beyond the end. -/
def arrGet (l : List JsVal) (i : Nat) : JsVal :=
  l.getD i .vundefined

/-- JS array write `a[i] = v`: in-place update inside the bounds, otherwise
the array grows, filling the gap with holes (which join as ""). -/
def arrSet (l : List JsVal) (i : Nat) (v : JsVal) : List JsVal :=
  if i < l.length then l.set i v
  else l ++ List.replicate (i - l.length) JsVal.vundefined ++ [v]

/-- `increaseVersionNumber(version, mode)` from src/lib/main.js: split on
".", mutate the components according to the mode with JS numeric coercion,
join with ".". Pure — no side effects. -/
def increaseVersionNumber (version mode : String) : String :=
  let arr := (splitOnChar '.' version.toList).map (fun g => JsVal.vstr (String.mk g))
  let arr :=
    if mode = "major" then
      arrSet (arrSet (arrSet arr 0 (jsAdd1 (jsParseInt (arrGet arr 0)))) 1 (.vstr "0")) 2 (.vstr "0")
    else if mode = "minor" then
      arrSet (arrSet arr 1 (jsAdd1 (jsParseInt (arrGet arr 1)))) 2 (.vstr "0")
    else if mode = "patch" then
      arrSet arr 2 (jsAdd1 (jsParseInt (arrGet arr 2)))
    else arr
  String.mk (joinWith '.' (arr.map (fun v => v.joinStr.toList)))

/-- A JSON value, for the manifest document handled by `publish`:
`JSON.parse` output and `JSON.stringify(data, null, 2)` input. -/
inductive JVal where
  | jstr (s : String) : JVal
  | jnum (n : Int) : JVal
  | jbool (b : Bool) : JVal
  | jnull : JVal
  | jarr (l : List JVal) : JVal
  | jobj (l : List (String × JVal)) : JVal

/-- Association-list field lookup, as JS property read on a parsed object. -/
def lookupKey : List (String × JVal) → String → Option JVal
  | [], _ => none
  | (k2, v) :: rest, k => if k2 = k then some v else lookupKey rest k

/-- JS property read `data.k`: `none` models `undefined` (also the result on
non-object values, which have no such own property). -/
def getField : JVal → String → Option JVal
  | .jobj l, k => lookupKey l k
  | _, _ => none

/-- JS property write on an object: replace the value at the key in place,
preserving key order, or append the key if absent. -/
def setKey (l : List (String × JVal)) (k : String) (v : JVal) : List (String × JVal) :=
  match l with
  | [] => [(k, v)]
  | (k2, v2) :: rest => if k2 = k then (k, v) :: rest else (k2, v2) :: setKey rest k v

/-- `data.version = newVersion` on the parsed manifest. -/
def setVersion (data : JVal) (newVersion : String) : JVal :=
  match data with
  | .jobj l => .jobj (setKey l "version" (.jstr newVersion))
  | x => x

/-- JSON string escaping (quote and backslash; the manifests at issue hold
no control characters). -/
def escapeString (s : String) : String :=
  String.join (s.toList.map (fun c =>
    if c = '"' then "\\\"" else if c = '\\' then "\\\\" else String.mk [c]))

/-- Indentation of `n` spaces. -/
def indentStr (n : Nat) : String := String.mk (List.replicate n ' ')

mutual

/-- `JSON.stringify(v, null, 2)` at nesting indentation `ind`: two-space
indented pretty-printing, exactly as used by the manifest write step. -/
def stringifyVal (ind : Nat) : JVal → String
  | .jstr s => "\"" ++ escapeString s ++ "\""
  | .jnum n => toString n
  | .jbool b => if b then "true" else "false"
  | .jnull => "null"
  | .jarr [] => "[]"
  | .jarr (v :: vs) =>
    "[\n" ++ String.intercalate ",\n"
      ((stringifyElems (ind + 2) (v :: vs)).map (fun s => indentStr (ind + 2) ++ s)) ++
    "\n" ++ indentStr ind ++ "]"
  | .jobj [] => "\x7b\x7d"
  | .jobj (p :: ps) =>
    "\x7b\n" ++ String.intercalate ",\n"
      ((stringifyFields (ind + 2) (p :: ps)).map (fun s => indentStr (ind + 2) ++ s)) ++
    "\n" ++ indentStr ind ++ "\x7d"

/-- Stringify each array element at the given indentation. -/
def stringifyElems (ind : Nat) : List JVal → List String
  | [] => []
  | v :: vs => stringifyVal ind v :: stringifyElems ind vs

/-- Stringify each object field `"key": value` at the given indentation. -/
def stringifyFields (ind : Nat) : List (String × JVal) → List String
  | [] => []
  | (k, v) :: rest =>
    ("\"" ++ escapeString k ++ "\": " ++ stringifyVal ind v) :: stringifyFields ind rest

end

/-- Observable effect of a pipeline run, in order of occurrence:
lock-file clearing, a git command, a ppm command, the manifest read, the
manifest write (with the exact serialized content), and notifications. -/
inductive Ev where
  | lockClear : Ev
  | git (argv : List String) : Ev
  | ppm (cmd : String) : Ev
  | readPkg : Ev
  | writePkg (content : String) : Ev
  | noteInfo (msg : String) : Ev
  | noteSuccess (msg : String) : Ev
  | noteError (title detail : String) : Ev
deriving DecidableEq, Repr

/-- Outcome oracle for git commands: argv (strategy and subprocess backends
take the same subcommand sequence) to stdout, or an error detail on
non-zero exit. -/
structure GitOracle where
  run : List String → Except String String

/-- Environment of one pipeline invocation: the git oracle, the manifest
read result (read + `JSON.parse`, an error covering a missing or unparsable
file), the manifest write result, and the ppm command oracle. -/
structure Env where
  git : GitOracle
  readPkg : Except String JVal
  writeOk : Except String Unit
  ppm : String → Except String String

/-- JS `String.prototype.trim`: drop leading and trailing whitespace. -/
def strTrim (s : String) : String :=
  String.mk (((s.toList.dropWhile isWsChar).reverse.dropWhile isWsChar).reverse)

/-- JS `String.prototype.endsWith` with a literal suffix. -/
def strEndsWith (s suffix : String) : Bool :=
  suffix.toList.isSuffixOf s.toList

/-- JS `String.prototype.slice(0, -n)`: drop the last `n` characters
(empty result when the string is no longer than `n`). -/
def strDropRight (s : String) (n : Nat) : String :=
  String.mk (s.toList.take (s.toList.length - n))

/-- `path.basename`: strip trailing separators, then keep the last
component. -/
def basename (p : String) : String :=
  String.mk (((p.toList.reverse.dropWhile (fun c => c == '/')).takeWhile
    (fun c => c != '/')).reverse)

/-- Argv of `git describe --tags --abbrev=0`, the latest-tag query. -/
def describeArgv : List String := ["describe", "--tags", "--abbrev=0"]

/-- Argv of `git diff <tag>..HEAD --stat`. -/
def diffArgv (tag : String) : List String := ["diff", tag ++ "..HEAD", "--stat"]

/-- `hasChangesSinceLastTag(cwd)` from src/lib/main.js: clear the stale
lock, query the latest tag, diff it against HEAD, return whether the
trimmed diff is non-empty; any failure yields `true`. Returns the event
trace and the boolean result. -/
def hasChangesSinceLastTag (o : GitOracle) : List Ev × Bool :=
  match o.run describeArgv with
  | .error _ => ([Ev.lockClear, Ev.git describeArgv], true)
  | .ok lastTag =>
    let argv := diffArgv (strTrim lastTag)
    ([Ev.lockClear, Ev.git describeArgv, Ev.git argv],
      match o.run argv with
      | .error _ => true
      | .ok diff => decide ((strTrim diff).length > 0))

/-- `gitPrepare(cwd, version)` from src/lib/main.js: clear the stale lock,
then `add --all`, `commit --all -m msg`, `tag -a vX -m msg`,
`push origin --tags`, strictly in order, aborting at the first failure with
an error notification; on success, a success notification with the package
name and version. -/
def gitPrepare (o : GitOracle) (cwd version : String) : List Ev :=
  let pkgName := basename cwd
  let msg := "Prepare v" ++ version ++ " release"
  let tag := "v" ++ version
  Ev.lockClear ::
  Ev.git ["add", "--all"] ::
  match o.run ["add", "--all"] with
  | .error e => [Ev.noteError "Package Publish: failed" e]
  | .ok _ =>
    Ev.git ["commit", "--all", "-m", msg] ::
    match o.run ["commit", "--all", "-m", msg] with
    | .error e => [Ev.noteError "Package Publish: failed" e]
    | .ok _ =>
      Ev.git ["tag", "-a", tag, "-m", msg] ::
      match o.run ["tag", "-a", tag, "-m", msg] with
      | .error e => [Ev.noteError "Package Publish: failed" e]
      | .ok _ =>
        Ev.git ["push", "origin", "--tags"] ::
        match o.run ["push", "origin", "--tags"] with
        | .error e => [Ev.noteError "Package Publish: failed" e]
        | .ok _ =>
          [Ev.noteSuccess ("Package Publish: " ++ pkgName ++ " v" ++ version ++ " published")]

/-- `gitPush(cwd)` from src/lib/main.js: clear the stale lock, run
`git push origin` (commits, no `--tags`), and notify; its own failure is
caught and reported, never propagated. -/
def gitPush (o : GitOracle) (cwd : String) : List Ev :=
  let pkgName := basename cwd
  Ev.lockClear ::
  Ev.git ["push", "origin"] ::
  match o.run ["push", "origin"] with
  | .ok _ => [Ev.noteSuccess ("Package Publish: " ++ pkgName ++ " pushed to origin")]
  | .error e => [Ev.noteError ("Package Publish: failed to push " ++ pkgName) e]

/-- Body of `publish` after the conditional gate: read and parse the
manifest, bump the version, write the manifest back with
`JSON.stringify(data, null, 2)`, notify, then run `gitPrepare`; any thrown
error (read, parse, a non-string `version` making `.split` throw, write) is
caught and reported. -/
def publishCore (env : Env) (dirPath mode : String) : List Ev :=
  Ev.readPkg ::
  match env.readPkg with
  | .error e => [Ev.noteError "Package Publish: failed" e]
  | .ok data =>
    match getField data "version" with
    | some (JVal.jstr oldVersion) =>
      let newVersion := increaseVersionNumber oldVersion mode
      Ev.writePkg (stringifyVal 0 (setVersion data newVersion)) ::
      match env.writeOk with
      | .error e => [Ev.noteError "Package Publish: failed" e]
      | .ok _ =>
        Ev.noteInfo ("Package Publish: version updated from v" ++ oldVersion ++
          " to v" ++ newVersion) ::
        gitPrepare env.git dirPath newVersion
    | _ => [Ev.noteError "Package Publish: failed" "TypeError"]

/-- `publish(dirPath, mode)` from src/lib/main.js: when the mode carries the
`-if` suffix, run the change detector once; skip with a notification when it
reports no changes, otherwise strip the suffix and continue with the core
pipeline. -/
def publish (env : Env) (dirPath mode : String) : List Ev :=
  let pkgName := basename dirPath
  if strEndsWith mode "-if" then
    let det := hasChangesSinceLastTag env.git
    if det.2 then
      det.1 ++ publishCore env dirPath (strDropRight mode 3)
    else
      det.1 ++ [Ev.noteInfo ("Package Publish: " ++ pkgName ++ " has no changes since last tag")]
  else
    publishCore env dirPath mode

/-- Body of `ppmPublish` after the conditional gate: clear the stale lock,
notify, run `ppm publish <mode>`; on success notify and push commits via
`gitPush`, on failure report the registry error (no push is attempted). -/
def ppmCore (env : Env) (dirPath mode : String) : List Ev :=
  let pkgName := basename dirPath
  Ev.lockClear ::
  Ev.noteInfo ("PPM Publish: publishing " ++ pkgName ++ " as " ++ mode ++ "...") ::
  Ev.ppm ("ppm publish " ++ mode) ::
  match env.ppm ("ppm publish " ++ mode) with
  | .ok _ =>
    Ev.noteSuccess ("PPM Publish: " ++ pkgName ++ " published") ::
    gitPush env.git dirPath
  | .error e => [Ev.noteError ("PPM Publish: failed to publish " ++ pkgName) e]

/-- `ppmPublish(dirPath, mode)` from src/lib/main.js: same conditional gate
as `publish`, then the ppm publish body. -/
def ppmPublish (env : Env) (dirPath mode : String) : List Ev :=
  let pkgName := basename dirPath
  if strEndsWith mode "-if" then
    let det := hasChangesSinceLastTag env.git
    if det.2 then
      det.1 ++ ppmCore env dirPath (strDropRight mode 3)
    else
      det.1 ++ [Ev.noteInfo ("PPM Publish: " ++ pkgName ++ " has no changes since last tag")]
  else
    ppmCore env dirPath mode

/-- Handle for the in-process git strategy module borrowed from the github
package. -/
abbrev Strategy := Nat

/-- One call of `getGitStrategy` from src/lib/main.js, with the module-level
cache passed explicitly and the probe outcome (whether the github package is
loadable at this moment) supplied by the environment. Returns (whether the
probe ran, the returned strategy, the new cache); the cache is written only
when the probe finds the strategy. -/
def getGitStrategy (cached : Option Strategy) (probe : Option Strategy) :
    Bool × Option Strategy × Option Strategy :=
  match cached with
  | some s => (false, some s, some s)
  | none => (true, probe, probe)

/-- A sequence of `getGitStrategy` calls threading the module-level cache,
one probe-environment answer per call; yields each call's (probed?, result)
and the final cache. -/
def runGetStrategy (cached : Option Strategy) :
    List (Option Strategy) → List (Bool × Option Strategy) × Option Strategy
  | [] => ([], cached)
  | p :: ps =>
    let r := getGitStrategy cached p
    let rest := runGetStrategy r.2.2 ps
    ((r.1, r.2.1) :: rest.1, rest.2)

/-- Outcome of the "publish existing tag" recovery operation. -/
inductive TagPublishOutcome where
  | noTagError : TagPublishOutcome
  | published (tag : String) : TagPublishOutcome
  | registryError (tag detail : String) : TagPublishOutcome
deriving DecidableEq, Repr

/-- Modelled from the spec: the `fast-publish:ppm-tag` command
(`publishLatestTag`) is documented in the repository README but its
implementing source file is not among the provided sources. Per the spec it
looks up the most recent tag, fails with `NoTagError` when none exists, and
otherwise invokes the registry-publish command scoped to that exact tag,
without bumping the version again. -/
def publishLatestTag (env : Env) : List Ev × TagPublishOutcome :=
  match env.git.run describeArgv with
  | .error _ => ([Ev.git describeArgv], .noTagError)
  | .ok t =>
    let tag := strTrim t
    ([Ev.git describeArgv, Ev.ppm ("ppm publish --tag " ++ tag)],
      match env.ppm ("ppm publish --tag " ++ tag) with
      | .ok _ => .published tag
      | .error e => .registryError tag e)

/-- A git oracle on which every command succeeds with empty output. -/
def gitOracleOk : GitOracle := ⟨fun _ => .ok ""⟩

/-- The parsed manifest `{"name": "x", "version": "1.0.0",
"dependencies": {"a": "^1.0.0"}}` used by concrete environments. -/
def manifest0 : List (String × JVal) :=
  [("name", .jstr "x"), ("version", .jstr "1.0.0"),
   ("dependencies", .jobj [("a", .jstr "^1.0.0")])]

/-- Concrete environment: every git command succeeds (with empty output),
the manifest is unreadable, and the registry publish fails. Used to witness
the partial-failure behaviour of `ppmPublish`. -/
def envRegistryDown : Env where
  git := ⟨fun _ => .ok ""⟩
  readPkg := .error "ENOENT"
  writeOk := .ok ()
  ppm := fun _ => .error "registry down"

/-- Concrete environment: a repository whose latest tag is `v1.2.3` and
whose diff against HEAD is empty (no changes since the last tag); manifest
reads fail, ppm succeeds. -/
def envNoChanges : Env where
  git := ⟨fun a => if a = describeArgv then .ok "v1.2.3\n" else .ok ""⟩
  readPkg := .error "ENOENT"
  writeOk := .ok ()
  ppm := fun _ => .ok ""

/-- Concrete environment: all external calls succeed, the latest tag is
`v1.2.3`, the diff against HEAD is non-empty, and the manifest is
`{"name": "x", "version": "1.0.0", "dependencies": {"a": "^1.0.0"}}`. -/
def envAllOk : Env where
  git := ⟨fun a =>
    if a = describeArgv then .ok "v1.2.3\n"
    else if a = diffArgv "v1.2.3" then .ok " 1 file changed\n" else .ok ""⟩
  readPkg := .ok (.jobj manifest0)
  writeOk := .ok ()
  ppm := fun _ => .ok "done"

/-- Per-event mutation flag: git `add`/`commit`/`tag`/`push` subcommands,
any ppm invocation, and the manifest write mutate state; lock clearing,
queries and notifications do not. -/
def isMutating : Ev → Bool
  | .git ("add" :: _) => true
  | .git ("commit" :: _) => true
  | .git ("tag" :: _) => true
  | .git ("push" :: _) => true
  | .ppm _ => true
  | .writePkg _ => true
  | _ => false

/-- A non-empty string of decimal digits: the shape of each component of a
valid `a.b.c` version. -/
def IsDigitStr (s : String) : Prop :=
  s.toList ≠ [] ∧ ∀ ch ∈ s.toList, ch.isDigit

/-- Numeric value of a digit string. -/
def digitVal (s : String) : Nat := digitsToNat s.toList

theorem strMk_toList (s : String) : String.mk s.toList = s := rfl

theorem toList_strAppend (a b : String) : (a ++ b).toList = a.toList ++ b.toList := rfl

theorem splitOnChar_ne_nil (c : Char) (l : List Char) : splitOnChar c l ≠ [] := by
  cases l with
  | nil => simp [splitOnChar]
  | cons x xs =>
    simp only [splitOnChar]
    cases h : splitOnChar c xs with
    | nil => simp
    | cons g gs =>
      show (if x = c then [] :: g :: gs else (x :: g) :: gs) ≠ []
      by_cases hx : x = c <;> simp [hx]

theorem joinWith_splitOnChar (c : Char) (l : List Char) :
    joinWith c (splitOnChar c l) = l := by
  induction l with
  | nil => rfl
  | cons x xs ih =>
    simp only [splitOnChar]
    cases h : splitOnChar c xs with
    | nil => exact absurd h (splitOnChar_ne_nil c xs)
    | cons g gs =>
      rw [h] at ih
      show joinWith c (if x = c then [] :: g :: gs else (x :: g) :: gs) = x :: xs
      by_cases hx : x = c
      · rw [if_pos hx]
        show c :: joinWith c (g :: gs) = x :: xs
        rw [ih, hx]
      · rw [if_neg hx]
        cases gs with
        | nil =>
          show x :: g = x :: xs
          simp only [joinWith] at ih
          rw [ih]
        | cons g2 gs2 =>
          show (x :: g) ++ c :: joinWith c (g2 :: gs2) = x :: xs
          simp only [joinWith] at ih
          simp [ih]

theorem splitOnChar_of_not_mem {c : Char} {l : List Char} (h : c ∉ l) :
    splitOnChar c l = [l] := by
  induction l with
  | nil => rfl
  | cons x xs ih =>
    simp only [List.mem_cons, not_or] at h
    have hxc : ¬(x = c) := fun hx => h.1 hx.symm
    simp only [splitOnChar, ih h.2, if_neg hxc]

theorem splitOnChar_append {c : Char} {l1 : List Char} (l2 : List Char) (h : c ∉ l1) :
    splitOnChar c (l1 ++ c :: l2) = l1 :: splitOnChar c l2 := by
  induction l1 with
  | nil =>
    simp only [List.nil_append, splitOnChar]
    cases hs : splitOnChar c l2 with
    | nil => exact absurd hs (splitOnChar_ne_nil c l2)
    | cons g gs => simp
  | cons x xs ih =>
    simp only [List.mem_cons, not_or] at h
    have hxc : ¬(x = c) := fun hx => h.1 hx.symm
    rw [show (x :: xs) ++ c :: l2 = x :: (xs ++ c :: l2) from rfl, splitOnChar, ih h.2]
    show (if x = c then [] :: xs :: splitOnChar c l2 else (x :: xs) :: splitOnChar c l2) =
      (x :: xs) :: splitOnChar c l2
    rw [if_neg hxc]

/-- With an unrecognized mode, none of the three branches fires, so the
version array is split and rejoined unchanged. -/
theorem increaseVersionNumber_unknown_mode_id (version mode : String)
    (h1 : mode ≠ "major") (h2 : mode ≠ "minor") (h3 : mode ≠ "patch") :
    increaseVersionNumber version mode = version := by
  simp only [increaseVersionNumber, if_neg h1, if_neg h2, if_neg h3, List.map_map]
  have hmap : ((fun v => (JsVal.joinStr v).toList) ∘ fun g => JsVal.vstr (String.mk g)) =
      @id (List Char) := by
    funext g
    rfl
  rw [hmap, List.map_id, joinWith_splitOnChar, strMk_toList]

theorem not_dot_of_digitStr {s : String} (h : IsDigitStr s) : '.' ∉ s.toList :=
  fun hmem => absurd (h.2 _ hmem) (by decide)

theorem takeWhile_all {α : Type} {p : α → Bool} {l : List α} (h : ∀ a ∈ l, p a) :
    l.takeWhile p = l := by
  induction l with
  | nil => rfl
  | cons a as ih =>
    rw [List.takeWhile_cons, if_pos (h a (by simp)), ih (fun b hb => h b (by simp [hb]))]

theorem jsParseIntChars_digits {l : List Char} (hne : l ≠ []) (hd : ∀ ch ∈ l, ch.isDigit) :
    jsParseIntChars l = .vint (digitsToNat l) := by
  cases l with
  | nil => exact absurd rfl hne
  | cons ch rest =>
    have hch : ch.isDigit := hd ch (by simp)
    have hws : isWsChar ch = false := by
      rcases Bool.eq_false_or_eq_true (isWsChar ch) with h | h
      · exfalso
        unfold isWsChar at h
        simp only [Bool.or_eq_true, beq_iff_eq] at h
        rcases h with ((h | h) | h) | h <;> (subst h; exact absurd hch (by decide))
      · exact h
    have hdrop : (ch :: rest).dropWhile isWsChar = ch :: rest := by
      rw [List.dropWhile_cons, hws]
      simp
    have hminus : ¬(ch = '-') := fun h => by subst h; exact absurd hch (by decide)
    have hplus : ¬(ch = '+') := fun h => by subst h; exact absurd hch (by decide)
    rw [jsParseIntChars, hdrop, jsParseIntSigned, if_neg hminus, if_neg hplus]
    simp only [takeWhile_all hd]
    rfl

/-- For a digit-string component `s`, `parseInt(s)` yields its numeric
value. -/
theorem jsParseInt_vstr_digits {s : String} (h : IsDigitStr s) :
    jsParseInt (.vstr s) = .vint (digitVal s) :=
  jsParseIntChars_digits h.1 h.2

theorem toList_version_three (sa sb sc : String) :
    (sa ++ "." ++ sb ++ "." ++ sc).toList =
      sa.toList ++ '.' :: (sb.toList ++ '.' :: sc.toList) := by
  simp only [toList_strAppend, List.append_assoc]
  rfl

theorem splitOnChar_version_three {sa sb sc : String}
    (ha : '.' ∉ sa.toList) (hb : '.' ∉ sb.toList) (hc : '.' ∉ sc.toList) :
    splitOnChar '.' ((sa ++ "." ++ sb ++ "." ++ sc).toList) =
      [sa.toList, sb.toList, sc.toList] := by
  rw [toList_version_three, splitOnChar_append _ ha, splitOnChar_append _ hb,
    splitOnChar_of_not_mem hc]

/-- Helper: a character-list computation equal to the target string's
characters gives the string itself after `String.mk`. -/
theorem strMk_eq_of_toList {l : List Char} {s : String} (h : l = s.toList) :
    String.mk l = s := by
  rw [h, strMk_toList]

/-- Bumping a valid numeric version `a.b.c`: `major` gives `(a+1).0.0`,
`minor` gives `a.(b+1).0`, `patch` gives `a.b.(c+1)`; the function is pure,
so there are no side effects. -/
theorem increaseVersionNumber_numeric (sa sb sc : String)
    (ha : IsDigitStr sa) (hb : IsDigitStr sb) (hc : IsDigitStr sc) :
    increaseVersionNumber (sa ++ "." ++ sb ++ "." ++ sc) "major"
      = toString ((digitVal sa : Int) + 1) ++ ".0.0" ∧
    increaseVersionNumber (sa ++ "." ++ sb ++ "." ++ sc) "minor"
      = sa ++ "." ++ (toString ((digitVal sb : Int) + 1) ++ ".0") ∧
    increaseVersionNumber (sa ++ "." ++ sb ++ "." ++ sc) "patch"
      = sa ++ "." ++ (sb ++ "." ++ toString ((digitVal sc : Int) + 1)) := by
  have hsplit := splitOnChar_version_three (not_dot_of_digitStr ha)
    (not_dot_of_digitStr hb) (not_dot_of_digitStr hc)
  refine ⟨?_, ?_, ?_⟩
  · simp only [increaseVersionNumber, hsplit, List.map_cons, List.map_nil, strMk_toList,
      arrGet, arrSet, List.getD, List.length_cons, List.length_nil]
    norm_num
    simp only [jsParseInt_vstr_digits ha, jsAdd1, List.set, List.map_cons, List.map_nil,
      joinWith, JsVal.joinStr]
    apply strMk_eq_of_toList
    simp only [toList_strAppend, List.append_assoc]
    rfl
  · simp only [increaseVersionNumber, hsplit, List.map_cons, List.map_nil, strMk_toList,
      arrGet, arrSet, List.getD, List.length_cons, List.length_nil]
    norm_num
    simp only [jsParseInt_vstr_digits hb, jsAdd1, List.set, List.map_cons, List.map_nil,
      joinWith, JsVal.joinStr]
    apply strMk_eq_of_toList
    simp only [toList_strAppend, List.append_assoc]
    rfl
  · simp only [increaseVersionNumber, hsplit, List.map_cons, List.map_nil, strMk_toList,
      arrGet, arrSet, List.getD, List.length_cons, List.length_nil]
    norm_num
    simp only [jsParseInt_vstr_digits hc, jsAdd1, List.set, List.map_cons, List.map_nil,
      joinWith, JsVal.joinStr]
    apply strMk_eq_of_toList
    simp only [toList_strAppend, List.append_assoc]
    rfl

/-- Witness for the numeric bump theorem at version `1.2.3`. -/
theorem increaseVersionNumber_numeric_witness :
    (IsDigitStr "1" ∧ IsDigitStr "2" ∧ IsDigitStr "3") ∧
    (increaseVersionNumber ("1" ++ "." ++ "2" ++ "." ++ "3") "major"
      = toString ((digitVal "1" : Int) + 1) ++ ".0.0" ∧
     increaseVersionNumber ("1" ++ "." ++ "2" ++ "." ++ "3") "minor"
      = "1" ++ "." ++ (toString ((digitVal "2" : Int) + 1) ++ ".0") ∧
     increaseVersionNumber ("1" ++ "." ++ "2" ++ "." ++ "3") "patch"
      = "1" ++ "." ++ ("2" ++ "." ++ toString ((digitVal "3" : Int) + 1))) :=
  ⟨⟨⟨by decide, by decide⟩, ⟨by decide, by decide⟩, ⟨by decide, by decide⟩⟩,
   increaseVersionNumber_numeric "1" "2" "3" ⟨by decide, by decide⟩ ⟨by decide, by decide⟩
     ⟨by decide, by decide⟩⟩

/-- Witness for the unknown-mode identity at version `1.2.3`, mode
`banana`. -/
theorem increaseVersionNumber_unknown_mode_id_witness :
    ("banana" ≠ "major" ∧ "banana" ≠ "minor" ∧ "banana" ≠ "patch") ∧
    increaseVersionNumber "1.2.3" "banana" = "1.2.3" :=
  ⟨⟨by decide, by decide, by decide⟩,
   increaseVersionNumber_unknown_mode_id "1.2.3" "banana" (by decide) (by decide) (by decide)⟩

/-- Counterexample to "missing components are treated as zero": bumping
`1.2` with `patch` yields `1.2.NaN`, not `1.2.1`. -/
theorem increaseVersionNumber_missing_component_cex :
    increaseVersionNumber "1.2" "patch" = "1.2.NaN" ∧
    increaseVersionNumber "1.2" "patch" ≠ "1.2.1" := by
  decide

/-- Amended behaviour for short or non-numeric versions under `patch`: the
targeted component parses to `NaN` (JS `parseInt` of a missing or
non-numeric component), `NaN + 1` stays `NaN`, and it serializes as
`"NaN"`; the untouched components are preserved verbatim. -/
theorem increaseVersionNumber_nan (sa sb sc : String)
    (ha : '.' ∉ sa.toList) (hb : '.' ∉ sb.toList) (hc : '.' ∉ sc.toList)
    (hnan : jsParseIntChars sc.toList = .vnan) :
    increaseVersionNumber (sa ++ "." ++ sb) "patch" = sa ++ "." ++ sb ++ ".NaN" ∧
    increaseVersionNumber (sa ++ "." ++ sb ++ "." ++ sc) "patch" = sa ++ "." ++ sb ++ ".NaN" := by
  constructor
  · have h2 : (sa ++ "." ++ sb).toList = sa.toList ++ '.' :: sb.toList := by
      simp only [toList_strAppend, List.append_assoc]
      rfl
    have hsplit : splitOnChar '.' ((sa ++ "." ++ sb).toList) = [sa.toList, sb.toList] := by
      rw [h2, splitOnChar_append _ ha, splitOnChar_of_not_mem hb]
    simp only [increaseVersionNumber, hsplit, List.map_cons, List.map_nil, strMk_toList,
      arrGet, arrSet, List.getD, List.length_cons, List.length_nil]
    norm_num
    simp only [jsParseInt, jsAdd1, List.replicate, joinWith, JsVal.joinStr, List.map_cons,
      List.map_nil, List.append_nil, List.cons_append, List.nil_append]
    apply strMk_eq_of_toList
    simp only [toList_strAppend, List.append_assoc]
    rfl
  · have hsplit := splitOnChar_version_three ha hb hc
    simp only [increaseVersionNumber, hsplit, List.map_cons, List.map_nil, strMk_toList,
      arrGet, arrSet, List.getD, List.length_cons, List.length_nil]
    norm_num
    simp only [jsParseInt, hnan, jsAdd1, List.set, joinWith, JsVal.joinStr, List.map_cons,
      List.map_nil]
    apply strMk_eq_of_toList
    simp only [toList_strAppend, List.append_assoc]
    rfl

/-- Witness for the NaN behaviour at `1.2` and `1.2.x` under `patch`. -/
theorem increaseVersionNumber_nan_witness :
    ('.' ∉ "1".toList ∧ '.' ∉ "2".toList ∧ '.' ∉ "x".toList ∧
      jsParseIntChars "x".toList = .vnan) ∧
    (increaseVersionNumber ("1" ++ "." ++ "2") "patch" = "1" ++ "." ++ "2" ++ ".NaN" ∧
     increaseVersionNumber ("1" ++ "." ++ "2" ++ "." ++ "x") "patch"
       = "1" ++ "." ++ "2" ++ ".NaN") :=
  ⟨⟨by decide, by decide, by decide, by decide⟩,
   increaseVersionNumber_nan "1" "2" "x" (by decide) (by decide) (by decide) (by decide)⟩

/-- Counterexample to "probed at most once per process": with nothing
cached and the github package unavailable at the first call, the second
call probes again (and picks the strategy up if it has become available),
instead of permanently using the fallback. -/
theorem getGitStrategy_reprobe_cex :
    runGetStrategy none [none, some 1] = ([(true, none), (true, some 1)], some 1) := by
  decide

/-- Amended caching policy of `getGitStrategy`: a cached strategy is
returned without probing and is never re-probed once acquired; with an
empty cache every call probes, caching the result only when the probe
succeeds (a failed probe leaves the cache empty, so the next call probes
again). -/
theorem getGitStrategy_cache_spec (cached probe : Option Strategy) :
    (∀ s, cached = some s → getGitStrategy cached probe = (false, some s, some s)) ∧
    (cached = none → getGitStrategy cached probe = (true, probe, probe)) ∧
    (∀ s ps, runGetStrategy (some s) ps = (ps.map (fun _ => (false, some s)), some s)) ∧
    (∀ s ps, runGetStrategy none (some s :: ps) =
      ((true, some s) :: ps.map (fun _ => (false, some s)), some s)) := by
  refine ⟨fun s hs => by rw [hs]; rfl, fun hn => by rw [hn]; rfl, ?_, ?_⟩
  · intro s ps
    induction ps with
    | nil => rfl
    | cons p ps ih =>
      simp only [runGetStrategy, getGitStrategy, ih, List.map_cons]
  · intro s ps
    have h := (fun ps => by
      induction ps with
      | nil => rfl
      | cons p ps ih => simp only [runGetStrategy, getGitStrategy, ih, List.map_cons] :
      ∀ ps : List (Option Strategy),
        runGetStrategy (some s) ps = (ps.map (fun _ => (false, some s)), some s))
    simp only [runGetStrategy, getGitStrategy, h ps]

/-- Witness for the amended caching policy. -/
theorem getGitStrategy_cache_spec_witness :
    ((some 2 : Option Strategy) = some 2 ∧
      getGitStrategy (some 2) none = (false, some 2, some 2)) ∧
    runGetStrategy none [some 3, none, none] =
      ([(true, some 3), (false, some 3), (false, some 3)], some 3) := by
  refine ⟨⟨rfl, (getGitStrategy_cache_spec (some 2) none).1 2 rfl⟩, ?_⟩
  have h := (getGitStrategy_cache_spec none none).2.2.2 3 [none, none]
  simpa using h

/-- The recovery push command always appears in a `gitPush` trace,
whatever the push outcome. -/
theorem push_mem_gitPush (o : GitOracle) (cwd : String) :
    Ev.git ["push", "origin"] ∈ gitPush o cwd := by
  unfold gitPush
  cases o.run ["push", "origin"] <;> simp

/-- The four git release sub-steps of `gitPrepare` run in strict order with
the exact commit message and tag; the first failing sub-step aborts the
rest with an error notification, and full success ends in a success
notification naming the package and version. -/
theorem gitPrepare_spec (o : GitOracle) (cwd version : String) :
    (∀ e, o.run ["add", "--all"] = .error e →
      gitPrepare o cwd version =
        [Ev.lockClear, Ev.git ["add", "--all"], Ev.noteError "Package Publish: failed" e]) ∧
    (∀ r1 e, o.run ["add", "--all"] = .ok r1 →
      o.run ["commit", "--all", "-m", "Prepare v" ++ version ++ " release"] = .error e →
      gitPrepare o cwd version =
        [Ev.lockClear, Ev.git ["add", "--all"],
         Ev.git ["commit", "--all", "-m", "Prepare v" ++ version ++ " release"],
         Ev.noteError "Package Publish: failed" e]) ∧
    (∀ r1 r2 e, o.run ["add", "--all"] = .ok r1 →
      o.run ["commit", "--all", "-m", "Prepare v" ++ version ++ " release"] = .ok r2 →
      o.run ["tag", "-a", "v" ++ version, "-m", "Prepare v" ++ version ++ " release"] = .error e →
      gitPrepare o cwd version =
        [Ev.lockClear, Ev.git ["add", "--all"],
         Ev.git ["commit", "--all", "-m", "Prepare v" ++ version ++ " release"],
         Ev.git ["tag", "-a", "v" ++ version, "-m", "Prepare v" ++ version ++ " release"],
         Ev.noteError "Package Publish: failed" e]) ∧
    (∀ r1 r2 r3 e, o.run ["add", "--all"] = .ok r1 →
      o.run ["commit", "--all", "-m", "Prepare v" ++ version ++ " release"] = .ok r2 →
      o.run ["tag", "-a", "v" ++ version, "-m", "Prepare v" ++ version ++ " release"] = .ok r3 →
      o.run ["push", "origin", "--tags"] = .error e →
      gitPrepare o cwd version =
        [Ev.lockClear, Ev.git ["add", "--all"],
         Ev.git ["commit", "--all", "-m", "Prepare v" ++ version ++ " release"],
         Ev.git ["tag", "-a", "v" ++ version, "-m", "Prepare v" ++ version ++ " release"],
         Ev.git ["push", "origin", "--tags"],
         Ev.noteError "Package Publish: failed" e]) ∧
    (∀ r1 r2 r3 r4, o.run ["add", "--all"] = .ok r1 →
      o.run ["commit", "--all", "-m", "Prepare v" ++ version ++ " release"] = .ok r2 →
      o.run ["tag", "-a", "v" ++ version, "-m", "Prepare v" ++ version ++ " release"] = .ok r3 →
      o.run ["push", "origin", "--tags"] = .ok r4 →
      gitPrepare o cwd version =
        [Ev.lockClear, Ev.git ["add", "--all"],
         Ev.git ["commit", "--all", "-m", "Prepare v" ++ version ++ " release"],
         Ev.git ["tag", "-a", "v" ++ version, "-m", "Prepare v" ++ version ++ " release"],
         Ev.git ["push", "origin", "--tags"],
         Ev.noteSuccess ("Package Publish: " ++ basename cwd ++ " v" ++ version ++ " published")]) := by
  refine ⟨fun e h => ?_, fun r1 e h1 h2 => ?_, fun r1 r2 e h1 h2 h3 => ?_,
    fun r1 r2 r3 e h1 h2 h3 h4 => ?_, fun r1 r2 r3 r4 h1 h2 h3 h4 => ?_⟩ <;>
    simp only [gitPrepare, *]

/-- Witness for the release sequence: all four git commands succeed, input
version `1.1.0`, so the tag is `v1.1.0` and the commit message is
`Prepare v1.1.0 release`. -/
theorem gitPrepare_spec_witness :
    (gitOracleOk.run ["add", "--all"] = .ok "" ∧
     gitOracleOk.run ["commit", "--all", "-m", "Prepare v" ++ "1.1.0" ++ " release"] = .ok "" ∧
     gitOracleOk.run ["tag", "-a", "v" ++ "1.1.0", "-m", "Prepare v" ++ "1.1.0" ++ " release"] = .ok "" ∧
     gitOracleOk.run ["push", "origin", "--tags"] = .ok "") ∧
    gitPrepare gitOracleOk "/proj/pkg" "1.1.0" =
      [Ev.lockClear, Ev.git ["add", "--all"],
       Ev.git ["commit", "--all", "-m", "Prepare v1.1.0 release"],
       Ev.git ["tag", "-a", "v1.1.0", "-m", "Prepare v1.1.0 release"],
       Ev.git ["push", "origin", "--tags"],
       Ev.noteSuccess "Package Publish: pkg v1.1.0 published"] :=
  ⟨⟨rfl, rfl, rfl, rfl⟩,
   (gitPrepare_spec gitOracleOk "/proj/pkg" "1.1.0").2.2.2.2 "" "" "" "" rfl rfl rfl rfl⟩

/-- The change detector clears the stale lock first, queries the latest
tag, diffs the trimmed tag against HEAD, and returns whether the trimmed
diff output is non-empty; a failing describe (no tag) or failing diff
yields `true`. -/
theorem hasChangesSinceLastTag_spec (o : GitOracle) :
    (∀ e, o.run describeArgv = .error e →
      hasChangesSinceLastTag o = ([Ev.lockClear, Ev.git describeArgv], true)) ∧
    (∀ t e, o.run describeArgv = .ok t → o.run (diffArgv (strTrim t)) = .error e →
      hasChangesSinceLastTag o =
        ([Ev.lockClear, Ev.git describeArgv, Ev.git (diffArgv (strTrim t))], true)) ∧
    (∀ t d, o.run describeArgv = .ok t → o.run (diffArgv (strTrim t)) = .ok d →
      hasChangesSinceLastTag o =
        ([Ev.lockClear, Ev.git describeArgv, Ev.git (diffArgv (strTrim t))],
          decide ((strTrim d).length > 0))) := by
  refine ⟨fun e h => ?_, fun t e h1 h2 => ?_, fun t d h1 h2 => ?_⟩ <;>
    simp only [hasChangesSinceLastTag, *]

/-- Witness for the change detector: a repository whose latest tag is
`v1.2.3` (trailing newline trimmed) and whose diff is empty, giving
`false`. -/
theorem hasChangesSinceLastTag_spec_witness :
    (envNoChanges.git.run describeArgv = .ok "v1.2.3\n" ∧
     envNoChanges.git.run (diffArgv (strTrim "v1.2.3\n")) = .ok "") ∧
    hasChangesSinceLastTag envNoChanges.git =
      ([Ev.lockClear, Ev.git describeArgv, Ev.git (diffArgv (strTrim "v1.2.3\n"))],
        decide ((strTrim "").length > 0)) :=
  ⟨⟨rfl, rfl⟩, (hasChangesSinceLastTag_spec envNoChanges.git).2.2 "v1.2.3\n" "" rfl rfl⟩

/-- Counterexample to the recovery-push claim: every git command would
succeed, the registry publish fails, yet the trace ends at the error
notification — no `git push origin` is attempted after the failure. -/
theorem ppmPublish_no_recovery_push_cex :
    ppmPublish envRegistryDown "/proj/pkg" "patch" =
      [Ev.lockClear, Ev.noteInfo "PPM Publish: publishing pkg as patch...",
       Ev.ppm "ppm publish patch",
       Ev.noteError "PPM Publish: failed to publish pkg" "registry down"] ∧
    Ev.git ["push", "origin"] ∉ ppmPublish envRegistryDown "/proj/pkg" "patch" ∧
    envRegistryDown.git.run ["push", "origin"] = .ok "" :=
  ⟨by decide, by decide, rfl⟩

/-- Amended recovery behaviour of `ppmPublish`: when the registry publish
fails, the original registry error is reported and no push is attempted;
the push of commits (`git push origin`) happens only after a successful
publish, and then it is attempted whatever its own outcome will be. -/
theorem ppmPublish_push_only_after_success (env : Env) (d mode : String)
    (hm : strEndsWith mode "-if" = false) :
    (∀ e, env.ppm ("ppm publish " ++ mode) = .error e →
      ppmPublish env d mode =
        [Ev.lockClear,
         Ev.noteInfo ("PPM Publish: publishing " ++ basename d ++ " as " ++ mode ++ "..."),
         Ev.ppm ("ppm publish " ++ mode),
         Ev.noteError ("PPM Publish: failed to publish " ++ basename d) e] ∧
      Ev.git ["push", "origin"] ∉ ppmPublish env d mode) ∧
    (∀ s, env.ppm ("ppm publish " ++ mode) = .ok s →
      ppmPublish env d mode =
        [Ev.lockClear,
         Ev.noteInfo ("PPM Publish: publishing " ++ basename d ++ " as " ++ mode ++ "..."),
         Ev.ppm ("ppm publish " ++ mode),
         Ev.noteSuccess ("PPM Publish: " ++ basename d ++ " published")] ++ gitPush env.git d ∧
      Ev.git ["push", "origin"] ∈ ppmPublish env d mode) := by
  have hpp : ppmPublish env d mode = ppmCore env d mode := by
    simp only [ppmPublish, hm, Bool.false_eq_true, if_false]
  constructor
  · intro e h
    have htr : ppmPublish env d mode =
        [Ev.lockClear,
         Ev.noteInfo ("PPM Publish: publishing " ++ basename d ++ " as " ++ mode ++ "..."),
         Ev.ppm ("ppm publish " ++ mode),
         Ev.noteError ("PPM Publish: failed to publish " ++ basename d) e] := by
      rw [hpp]
      simp only [ppmCore, h]
    refine ⟨htr, ?_⟩
    rw [htr]
    simp
  · intro s h
    have htr : ppmPublish env d mode =
        [Ev.lockClear,
         Ev.noteInfo ("PPM Publish: publishing " ++ basename d ++ " as " ++ mode ++ "..."),
         Ev.ppm ("ppm publish " ++ mode),
         Ev.noteSuccess ("PPM Publish: " ++ basename d ++ " published")] ++ gitPush env.git d := by
      rw [hpp]
      simp only [ppmCore, h]
      rfl
    refine ⟨htr, ?_⟩
    rw [htr]
    exact List.mem_append_right _ (push_mem_gitPush env.git d)

/-- Witness for the amended recovery behaviour, on the failing-registry
environment. -/
theorem ppmPublish_push_only_after_success_witness :
    (strEndsWith "patch" "-if" = false ∧
      envRegistryDown.ppm ("ppm publish " ++ "patch") = .error "registry down") ∧
    (ppmPublish envRegistryDown "/proj/pkg" "patch" =
      [Ev.lockClear,
       Ev.noteInfo ("PPM Publish: publishing " ++ basename "/proj/pkg" ++ " as " ++ "patch" ++ "..."),
       Ev.ppm ("ppm publish " ++ "patch"),
       Ev.noteError ("PPM Publish: failed to publish " ++ basename "/proj/pkg") "registry down"] ∧
     Ev.git ["push", "origin"] ∉ ppmPublish envRegistryDown "/proj/pkg" "patch") :=
  ⟨⟨by decide, rfl⟩,
   (ppmPublish_push_only_after_success envRegistryDown "/proj/pkg" "patch" (by decide)).1
     "registry down" rfl⟩

theorem lookupKey_setKey_self (l : List (String × JVal)) (k : String) (v : JVal) :
    lookupKey (setKey l k v) k = some v := by
  induction l with
  | nil => simp [setKey, lookupKey]
  | cons p rest ih =>
    obtain ⟨k2, v2⟩ := p
    by_cases h : k2 = k
    · simp [setKey, lookupKey, h]
    · simp [setKey, lookupKey, h, ih]

theorem lookupKey_setKey_other (l : List (String × JVal)) (k k2 : String) (v : JVal)
    (h : k2 ≠ k) : lookupKey (setKey l k v) k2 = lookupKey l k2 := by
  induction l with
  | nil =>
    have hne : ¬(k = k2) := fun hk => h hk.symm
    simp [setKey, lookupKey, hne]
  | cons p rest ih =>
    obtain ⟨k3, v3⟩ := p
    by_cases h3 : k3 = k
    · subst h3
      simp only [setKey, if_pos rfl, lookupKey]
      rw [if_neg (fun hk => h hk.symm), if_neg (fun hk => h hk.symm)]
    · simp only [setKey, if_neg h3, lookupKey, ih]

/-- The manifest write step: the trace writes back
`JSON.stringify(data, null, 2)` of the object whose `version` field alone
was replaced with the bumped version; every other top-level field is
preserved verbatim. -/
theorem publish_write_preserves_fields (env : Env) (d mode : String)
    (l : List (String × JVal)) (old : String)
    (hread : env.readPkg = .ok (.jobj l))
    (hv : lookupKey l "version" = some (.jstr old)) :
    (publishCore env d mode).take 2 =
      [Ev.readPkg, Ev.writePkg (stringifyVal 0
        (.jobj (setKey l "version" (.jstr (increaseVersionNumber old mode)))))] ∧
    (∀ k, k ≠ "version" →
      lookupKey (setKey l "version" (.jstr (increaseVersionNumber old mode))) k =
        lookupKey l k) ∧
    lookupKey (setKey l "version" (.jstr (increaseVersionNumber old mode))) "version" =
      some (.jstr (increaseVersionNumber old mode)) := by
  refine ⟨?_, fun k hk => lookupKey_setKey_other l "version" k _ hk, lookupKey_setKey_self l _ _⟩
  simp only [publishCore, hread, getField, hv, setVersion, List.take_succ_cons, List.take_zero]

/-- Witness for the manifest write: bumping patch on
`{"name": "x", "version": "1.0.0", "dependencies": {...}}`. -/
theorem publish_write_preserves_fields_witness :
    (envAllOk.readPkg = .ok (.jobj manifest0) ∧
     lookupKey manifest0 "version" = some (.jstr "1.0.0")) ∧
    (publishCore envAllOk "/proj/pkg" "patch").take 2 =
      [Ev.readPkg, Ev.writePkg (stringifyVal 0 (.jobj (setKey manifest0 "version"
        (.jstr (increaseVersionNumber "1.0.0" "patch")))))] ∧
    lookupKey (setKey manifest0 "version" (.jstr (increaseVersionNumber "1.0.0" "patch")))
      "name" = lookupKey manifest0 "name" ∧
    lookupKey (setKey manifest0 "version" (.jstr (increaseVersionNumber "1.0.0" "patch")))
      "dependencies" = lookupKey manifest0 "dependencies" ∧
    lookupKey (setKey manifest0 "version" (.jstr (increaseVersionNumber "1.0.0" "patch")))
      "version" = some (.jstr (increaseVersionNumber "1.0.0" "patch")) :=
  ⟨⟨rfl, rfl⟩,
   (publish_write_preserves_fields envAllOk "/proj/pkg" "patch" manifest0 "1.0.0" rfl rfl).1,
   (publish_write_preserves_fields envAllOk "/proj/pkg" "patch" manifest0 "1.0.0" rfl rfl).2.1
     "name" (by decide),
   (publish_write_preserves_fields envAllOk "/proj/pkg" "patch" manifest0 "1.0.0" rfl rfl).2.1
     "dependencies" (by decide),
   (publish_write_preserves_fields envAllOk "/proj/pkg" "patch" manifest0 "1.0.0" rfl rfl).2.2⟩

/-- The "publish existing tag" operation: with no tag it fails with
`NoTagError` and runs no registry command; with a latest tag `t` it runs
the registry publish scoped to exactly the trimmed `t` and never rewrites
the manifest or runs any other git command (no version bump). -/
theorem publishLatestTag_spec (env : Env) :
    (∀ e, env.git.run describeArgv = .error e →
      publishLatestTag env = ([Ev.git describeArgv], .noTagError)) ∧
    (∀ t, env.git.run describeArgv = .ok t →
      (publishLatestTag env).1 =
        [Ev.git describeArgv, Ev.ppm ("ppm publish --tag " ++ strTrim t)] ∧
      (∀ s, env.ppm ("ppm publish --tag " ++ strTrim t) = .ok s →
        (publishLatestTag env).2 = .published (strTrim t)) ∧
      (∀ e, env.ppm ("ppm publish --tag " ++ strTrim t) = .error e →
        (publishLatestTag env).2 = .registryError (strTrim t) e)) ∧
    (∀ s, Ev.writePkg s ∉ (publishLatestTag env).1) ∧
    (∀ a, Ev.git a ∈ (publishLatestTag env).1 → a = describeArgv) := by
  refine ⟨fun e h => by simp only [publishLatestTag, h], fun t h => ?_, ?_, ?_⟩
  · refine ⟨by simp only [publishLatestTag, h], fun s hs => ?_, fun e he => ?_⟩
    · simp only [publishLatestTag, h, hs]
    · simp only [publishLatestTag, h, he]
  · intro s
    rcases h : env.git.run describeArgv with e | t <;> simp [publishLatestTag, h]
  · intro a ha
    rcases h : env.git.run describeArgv with e | t <;>
      simp [publishLatestTag, h] at ha <;> exact ha

/-- Witness for the tag-publish recovery operation, on a repository whose
latest tag is `v1.2.3` and whose registry publish succeeds. -/
theorem publishLatestTag_spec_witness :
    (envNoChanges.git.run describeArgv = .ok "v1.2.3\n" ∧
     envNoChanges.ppm ("ppm publish --tag " ++ strTrim "v1.2.3\n") = .ok "") ∧
    (publishLatestTag envNoChanges).1 =
      [Ev.git describeArgv, Ev.ppm ("ppm publish --tag " ++ strTrim "v1.2.3\n")] ∧
    (publishLatestTag envNoChanges).2 = .published (strTrim "v1.2.3\n") :=
  ⟨⟨rfl, rfl⟩,
   ((publishLatestTag_spec envNoChanges).2.1 "v1.2.3\n" rfl).1,
   ((publishLatestTag_spec envNoChanges).2.1 "v1.2.3\n" rfl).2.1 "" rfl⟩

theorem count_describe_gitPush (o : GitOracle) (cwd : String) :
    (gitPush o cwd).count (Ev.git describeArgv) = 0 := by
  unfold gitPush
  rcases o.run ["push", "origin"] with e | s <;> simp [describeArgv]

theorem count_describe_gitPrepare (o : GitOracle) (cwd version : String) :
    (gitPrepare o cwd version).count (Ev.git describeArgv) = 0 := by
  unfold gitPrepare
  rcases h1 : o.run ["add", "--all"] with e | r1
  · simp [h1, describeArgv]
  · rcases h2 : o.run ["commit", "--all", "-m", "Prepare v" ++ version ++ " release"] with e | r2
    · simp [h1, h2, describeArgv]
    · rcases h3 : o.run ["tag", "-a", "v" ++ version, "-m", "Prepare v" ++ version ++ " release"]
        with e | r3
      · simp [h1, h2, h3, describeArgv]
      · rcases h4 : o.run ["push", "origin", "--tags"] with e | r4 <;>
          simp [h1, h2, h3, h4, describeArgv]

theorem count_describe_publishCore (env : Env) (d mode : String) :
    (publishCore env d mode).count (Ev.git describeArgv) = 0 := by
  unfold publishCore
  rcases hr : env.readPkg with e | data
  · simp [hr, describeArgv]
  · rcases hv : getField data "version" with _ | v
    · simp [hr, hv, describeArgv]
    · rcases v with s | n | b | _ | a | o2
      case jstr =>
        rcases hw : env.writeOk with e | u
        · simp [hr, hv, hw, describeArgv]
        · simp [hr, hv, hw, count_describe_gitPrepare]
      all_goals simp [hr, hv, describeArgv]

theorem count_describe_ppmCore (env : Env) (d mode : String) :
    (ppmCore env d mode).count (Ev.git describeArgv) = 0 := by
  unfold ppmCore
  rcases hp : env.ppm ("ppm publish " ++ mode) with e | s
  · simp [hp, describeArgv]
  · simp [hp, count_describe_gitPush]

theorem count_describe_hasChanges (o : GitOracle) :
    (hasChangesSinceLastTag o).1.count (Ev.git describeArgv) = 1 := by
  unfold hasChangesSinceLastTag
  rcases h : o.run describeArgv with e | t <;> simp [describeArgv, diffArgv]

theorem hasChanges_all_nonmut (o : GitOracle) :
    ((hasChangesSinceLastTag o).1.all (fun e => !(isMutating e))) = true := by
  unfold hasChangesSinceLastTag
  rcases h : o.run describeArgv with e | t <;> rfl

/-- The conditional gate of `publish` and `ppmPublish`: a `-if` mode runs
the change detector once (exactly one latest-tag query in the trace), the
continuation receives the mode with the suffix stripped, and a negative
detector result ends the run with a skip notification — no write, no ppm
call, and no mutating git command. -/
theorem conditional_gate_spec (env : Env) (d mode : String)
    (hm : strEndsWith mode "-if" = true) :
    (publish env d mode =
      (hasChangesSinceLastTag env.git).1 ++
        (if (hasChangesSinceLastTag env.git).2 then
          publishCore env d (strDropRight mode 3)
        else
          [Ev.noteInfo ("Package Publish: " ++ basename d ++ " has no changes since last tag")]) ∧
     (publish env d mode).count (Ev.git describeArgv) = 1) ∧
    (ppmPublish env d mode =
      (hasChangesSinceLastTag env.git).1 ++
        (if (hasChangesSinceLastTag env.git).2 then
          ppmCore env d (strDropRight mode 3)
        else
          [Ev.noteInfo ("PPM Publish: " ++ basename d ++ " has no changes since last tag")]) ∧
     (ppmPublish env d mode).count (Ev.git describeArgv) = 1) ∧
    ((hasChangesSinceLastTag env.git).2 = false →
      (publish env d mode =
        (hasChangesSinceLastTag env.git).1 ++
          [Ev.noteInfo ("Package Publish: " ++ basename d ++ " has no changes since last tag")] ∧
       (publish env d mode).all (fun e => !(isMutating e)) = true) ∧
      (ppmPublish env d mode =
        (hasChangesSinceLastTag env.git).1 ++
          [Ev.noteInfo ("PPM Publish: " ++ basename d ++ " has no changes since last tag")] ∧
       (ppmPublish env d mode).all (fun e => !(isMutating e)) = true)) := by
  have hpub : publish env d mode =
      (hasChangesSinceLastTag env.git).1 ++
        (if (hasChangesSinceLastTag env.git).2 then
          publishCore env d (strDropRight mode 3)
        else
          [Ev.noteInfo ("Package Publish: " ++ basename d ++ " has no changes since last tag")]) := by
    simp only [publish, hm, if_true]
    cases hb : (hasChangesSinceLastTag env.git).2 <;> simp [hb]
  have hppm : ppmPublish env d mode =
      (hasChangesSinceLastTag env.git).1 ++
        (if (hasChangesSinceLastTag env.git).2 then
          ppmCore env d (strDropRight mode 3)
        else
          [Ev.noteInfo ("PPM Publish: " ++ basename d ++ " has no changes since last tag")]) := by
    simp only [ppmPublish, hm, if_true]
    cases hb : (hasChangesSinceLastTag env.git).2 <;> simp [hb]
  refine ⟨⟨hpub, ?_⟩, ⟨hppm, ?_⟩, fun hfalse => ?_⟩
  · rw [hpub, List.count_append, count_describe_hasChanges]
    cases hb : (hasChangesSinceLastTag env.git).2
    · rw [if_neg (by simp)]
      simp
    · rw [if_pos rfl, count_describe_publishCore]
  · rw [hppm, List.count_append, count_describe_hasChanges]
    cases hb : (hasChangesSinceLastTag env.git).2
    · rw [if_neg (by simp)]
      simp
    · rw [if_pos rfl, count_describe_ppmCore]
  · rw [hfalse] at hpub hppm
    simp only [if_false, Bool.false_eq_true] at hpub hppm
    refine ⟨⟨hpub, ?_⟩, ⟨hppm, ?_⟩⟩
    · rw [hpub, List.all_append, hasChanges_all_nonmut]
      rfl
    · rw [hppm, List.all_append, hasChanges_all_nonmut]
      rfl

/-- Witness for the conditional gate on a repository with no changes since
the last tag: mode `patch-if` is skipped with a notification, nothing
mutating in the trace, and one latest-tag query. -/
theorem conditional_gate_spec_witness :
    (strEndsWith "patch-if" "-if" = true ∧
     (hasChangesSinceLastTag envNoChanges.git).2 = false) ∧
    (publish envNoChanges "/proj/pkg" "patch-if" =
      (hasChangesSinceLastTag envNoChanges.git).1 ++
        [Ev.noteInfo ("Package Publish: " ++ basename "/proj/pkg" ++
          " has no changes since last tag")] ∧
     (publish envNoChanges "/proj/pkg" "patch-if").all (fun e => !(isMutating e)) = true) ∧
    (publish envNoChanges "/proj/pkg" "patch-if").count (Ev.git describeArgv) = 1 :=
  ⟨⟨by decide, rfl⟩,
   ((conditional_gate_spec envNoChanges "/proj/pkg" "patch-if" (by decide)).2.2 rfl).1,
   (conditional_gate_spec envNoChanges "/proj/pkg" "patch-if" (by decide)).1.2⟩

end FastPublish

